import Mathlib

set_option maxRecDepth 20000

/-!
Verification development for the solid-id library (src/solid-id.ts):
128-bit sortable identifiers made of a 48-bit millisecond timestamp
(relative to 1985-05-17T00:00:00Z), 64 bits of entropy and a 16-bit
CRC-16-CCITT checksum, rendered as 22 base-62 characters.
Strings are modelled as lists of characters, JS BigInt values as Nat,
JS number timestamps as Int, and Uint8Array values as lists of Nat
below 256.
-/

/-- Base62 alphabet of the source, in its exact order 0-9, A-Z, a-z. -/
def ALPHABET : List Char :=
  "0123456789ABCDEFGHIJKLMNOPQRSTUVWXYZabcdefghijklmnopqrstuvwxyz".toList

/-- Base (62) for divisions/modulus. -/
def BASE : Nat := ALPHABET.length

/-- Character at index i of the alphabet (JS `ALPHABET[i]`; i is always < 62 at call sites). -/
def alphaChar (i : Nat) : Char := ALPHABET.getD i ' '

/-- First index of c in a character list, starting the count at i.
    Models the lookup map built by the source's initialization loop. -/
def indexIn (c : Char) : List Char → Nat → Option Nat
  | [], _ => none
  | d :: rest, i => if c = d then some i else indexIn c rest (i + 1)

/-- Lookup table for Base62 decoding per character. -/
def ALPHABET_INDEX (c : Char) : Option Nat := indexIn c ALPHABET 0

/-- Fixed epoch: value of `new Date('1985-05-17T00:00:00Z').getTime()`. -/
def EPOCH_MS : Int := 485136000000

/-- 48-bit mask for the timestamp (2^48 - 1). -/
def TIMESTAMP_MASK : Nat := (1 <<< 48) - 1

/-- Bit sizes of the ID components. -/
def TIMESTAMP_BITS : Nat := 48

def ENTROPY_BITS : Nat := 64

def CHECKSUM_BITS : Nat := 16

/-- Expected length of the Base62 string (encoded 128 bits). -/
def ID_LENGTH : Nat := 22

/-- Maximum millisecond offset representable in 48 bits. -/
def MAX_TIMESTAMP_MS_48 : Int := ((1 <<< TIMESTAMP_BITS) - 1 : Nat)

/-- Precomputed shifts. -/
def SHIFT_FOR_ENTROPY : Nat := CHECKSUM_BITS

def SHIFT_FOR_TIMESTAMP : Nat := ENTROPY_BITS + CHECKSUM_BITS

/-- Extraction masks. -/
def MASK_CHECKSUM : Nat := (1 <<< CHECKSUM_BITS) - 1

def MASK_ENTROPY : Nat := (1 <<< ENTROPY_BITS) - 1

/-- One shift-xor round of the CRC table construction (body of the inner loop
    `crc = (crc & 0x8000) ? ((crc << 1) ^ 0x1021) : (crc << 1)`). -/
def crcShift (crc : Nat) : Nat :=
  if crc &&& 0x8000 ≠ 0 then ((crc <<< 1) ^^^ 0x1021) else (crc <<< 1)

/-- Entry i of the precomputed CRC-16-CCITT table (polynomial 0x1021):
    eight shift-xor rounds applied to `i << 8`, masked to 16 bits. -/
def CRC_TABLE (i : Nat) : Nat := (crcShift^[8] (i <<< 8)) &&& 0xFFFF

/-- CRC-16-CCITT over a byte sequence (all entries < 256 at call sites),
    initial register 0xFFFF, table-driven, final mask to 16 bits. -/
def crc16CCITT (input : List Nat) : Nat :=
  (input.foldl
    (fun crc b => ((crc <<< 8) &&& 0xFF00) ^^^ CRC_TABLE (((crc >>> 8) &&& 0xFF) ^^^ b))
    0xFFFF) &&& 0xFFFF

/-- Big-endian fixed-length byte expansion of a nonnegative integer:
    position byteLength-1 receives `value & 0xFF`, earlier positions the
    bytes of `value >> 8`, exactly as the source's downward loop fills them. -/
def bigintToBytes (value : Nat) (byteLength : Nat) : List Nat :=
  match byteLength with
  | 0 => []
  | n + 1 => bigintToBytes (value >>> 8) n ++ [value &&& 0xFF]

/-- Big-endian interpretation of a byte list (reference inverse of
    bigintToBytes, used to state what the packing computes). -/
def bytesToNat (l : List Nat) : Nat := l.foldl (fun acc b => acc * 256 + b) 0

/-- Iterative base-62 digit emission: while n > 0, prepend `ALPHABET[n % 62]`
    and divide n by 62. -/
def encodeRec (n : Nat) (result : List Char) : List Char :=
  if h : n = 0 then result
  else encodeRec (n / BASE) (alphaChar (n % BASE) :: result)
termination_by n
decreasing_by exact Nat.div_lt_self (Nat.pos_of_ne_zero h) (by decide)

/-- JS `padStart(ID_LENGTH, '0')`: left-pad with zero symbols up to 22,
    leave longer strings unchanged. -/
def padStartZeros (l : List Char) : List Char :=
  List.replicate (ID_LENGTH - l.length) '0' ++ l

/-- Encodes an integer to fixed-width Base62 (source encodeBase62). -/
def encodeBase62 (number : Nat) : List Char :=
  if number = 0 then padStartZeros ['0']
  else padStartZeros (encodeRec number [])

/-- Left-to-right accumulation of decodeBase62, with the character position
    carried for the error message. -/
def decodeGo (i : Nat) (result : Nat) : List Char → Except String Nat
  | [] => .ok result
  | c :: rest =>
    match ALPHABET_INDEX c with
    | none =>
      .error ("Invalid character in Base62 string: " ++ String.singleton c
        ++ " at position " ++ toString i)
    | some v => decodeGo (i + 1) (result * BASE + v) rest

/-- Decodes a Base62 string to an integer; errors on a character outside
    the alphabet (source decodeBase62). -/
def decodeBase62 (str : List Char) : Except String Nat := decodeGo 0 0 str

/-- Field record returned by extractFieldsFromBigint. -/
structure ExtractedFields where
  timestamp48 : Nat
  entropy64 : Nat
  checksum16 : Nat
  computedChecksum16 : Nat
deriving Repr, DecidableEq

/-- Extracts the ID fields and recomputes the expected CRC over the
    14-byte concatenation timestamp(6) || entropy(8). -/
def extractFieldsFromBigint (fullId : Nat) : ExtractedFields :=
  let checksum16 := fullId &&& MASK_CHECKSUM
  let timestamp48 := fullId >>> SHIFT_FOR_TIMESTAMP
  let entropy64 := (fullId >>> SHIFT_FOR_ENTROPY) &&& MASK_ENTROPY
  let combined := bigintToBytes timestamp48 6 ++ bigintToBytes entropy64 8
  { timestamp48 := timestamp48
    entropy64 := entropy64
    checksum16 := checksum16
    computedChecksum16 := crc16CCITT combined }

/-- Parse status taxonomy of the source. -/
inductive SolidIdParseStatus
  | OK
  | INVALID_LENGTH
  | INVALID_FORMAT
  | DECODE_ERROR
  | INVALID_CHECKSUM
deriving Repr, DecidableEq

/-- Result record of parseSolidId; optional fields default to none exactly
    when the source leaves them undefined. -/
structure ParsedSolidId where
  id : List Char
  valid : Bool
  status : SolidIdParseStatus
  timestampMs : Option Int := none
  timestamp48 : Option Nat := none
  entropy64 : Option Nat := none
  checksum16 : Option Nat := none
  computedChecksum16 : Option Nat := none
  errorMessage : Option String := none
deriving Repr, DecidableEq

/-- Character class of the source regex [0-9A-Za-z], by code point. -/
def isAlnum (c : Char) : Bool :=
  (48 ≤ c.toNat && c.toNat ≤ 57) || (65 ≤ c.toNat && c.toNat ≤ 90)
    || (97 ≤ c.toNat && c.toNat ≤ 122)

/-- Analyzes a SOLID ID: length check, alphabet check, decode, field
    extraction, checksum comparison (source parseSolidId). -/
def parseSolidId (id : List Char) : ParsedSolidId :=
  if id.length ≠ ID_LENGTH then
    { id := id, valid := false, status := .INVALID_LENGTH }
  else if !(id.all isAlnum) then
    { id := id, valid := false, status := .INVALID_FORMAT }
  else
    match decodeBase62 id with
    | .error msg =>
      { id := id, valid := false, status := .DECODE_ERROR, errorMessage := some msg }
    | .ok fullId =>
      let f := extractFieldsFromBigint fullId
      if f.checksum16 ≠ f.computedChecksum16 then
        { id := id, valid := false, status := .INVALID_CHECKSUM
          timestamp48 := some f.timestamp48, entropy64 := some f.entropy64
          checksum16 := some f.checksum16, computedChecksum16 := some f.computedChecksum16 }
      else
        { id := id, valid := true, status := .OK
          timestampMs := some ((f.timestamp48 : Int) + EPOCH_MS)
          timestamp48 := some f.timestamp48, entropy64 := some f.entropy64
          checksum16 := some f.checksum16, computedChecksum16 := some f.computedChecksum16 }

/-- Verifies a SOLID ID via the parser (source validateSolidId). -/
def validateSolidId (id : List Char) : Bool := (parseSolidId id).valid

/-- Ambient JS environment of a generateSolidId call: availability of
    globalThis.crypto, the Date.now() reading, and the two 32-bit values a
    getRandomValues draw would produce. -/
structure GenEnv where
  globalCryptoAvailable : Bool
  dateNowMs : Int
  randHi : Nat
  randLo : Nat

/-- Options object for generation: frozen time, deterministic 64-bit
    entropy override (modelled by the value it returns), and presence of a
    usable options.crypto implementation. -/
structure GenerateOptions where
  nowMs : Option Int := none
  rng64 : Option Nat := none
  cryptoAvailable : Bool := false

/-- Resolves a usable Crypto implementation: options.crypto first, then
    globalThis.crypto, else throws (source getCrypto). -/
def getCrypto (env : GenEnv) (options : GenerateOptions) : Except String Unit :=
  if options.cryptoAvailable then .ok ()
  else if env.globalCryptoAvailable then .ok ()
  else .error "Crypto API is not available in this environment; pass options.crypto or use Node >=18 / modern browsers."

/-- Generates a 128-bit SOLID ID (source generateSolidId): resolves crypto,
    range-checks the elapsed time, masks timestamp and entropy, computes the
    CRC over timestamp(6) || entropy(8), packs 48+64+16 bits and encodes. -/
def generateSolidId (env : GenEnv) (options : GenerateOptions) : Except String (List Char) :=
  match getCrypto env options with
  | .error e => .error e
  | .ok _ =>
    let now : Int := options.nowMs.getD env.dateNowMs
    let timeSinceEpoch : Int := now - EPOCH_MS
    if timeSinceEpoch < 0 ∨ timeSinceEpoch > MAX_TIMESTAMP_MS_48 then
      .error "Invalid timestamp value (out of 48-bit range)"
    else
      let timestamp : Nat := timeSinceEpoch.toNat &&& TIMESTAMP_MASK
      let entropy : Nat :=
        match options.rng64 with
        | some e => e &&& MASK_ENTROPY
        | none => ((env.randHi % 4294967296) <<< 32) ||| (env.randLo % 4294967296)
      let combined := bigintToBytes timestamp 6 ++ bigintToBytes entropy 8
      let crc : Nat := crc16CCITT combined
      let id : Nat :=
        (timestamp <<< SHIFT_FOR_TIMESTAMP) ||| (entropy <<< SHIFT_FOR_ENTROPY) ||| crc
      .ok (encodeBase62 id)

/-- Number of base-62 digits the encoding loop emits for n (0 for n = 0). -/
def numDigits (n : Nat) : Nat :=
  if h : n = 0 then 0 else numDigits (n / BASE) + 1
termination_by n
decreasing_by exact Nat.div_lt_self (Nat.pos_of_ne_zero h) (by decide)

/-- Digit value of a character (0 if outside the alphabet; call sites stay inside). -/
def digitVal (c : Char) : Nat := (ALPHABET_INDEX c).getD 0

/-- Value accumulated by the decoding fold over a character list, starting at a. -/
def listVal (a : Nat) (l : List Char) : Nat :=
  l.foldl (fun x c => x * BASE + digitVal c) a

/-! ## Bit-arithmetic helpers -/

theorem shiftLeft_or_eq_add {a b k : Nat} (hb : b < 2 ^ k) :
    (a <<< k) ||| b = a <<< k + b := by
  apply Nat.eq_of_testBit_eq
  intro i
  rw [Nat.testBit_or]
  rcases Nat.lt_or_ge i k with hik | hik
  · have h1 : (a <<< k).testBit i = false := by
      simp [Nat.testBit_shiftLeft, Nat.not_le.mpr hik]
    rw [h1, Bool.false_or, Nat.shiftLeft_eq, Nat.testBit_to_div_mod, Nat.testBit_to_div_mod]
    have hk : a * 2 ^ k = 2 ^ i * (a * 2 ^ (k - i)) := by
      have hsplit : (2 : Nat) ^ k = 2 ^ i * 2 ^ (k - i) := by
        rw [← Nat.pow_add]
        congr 1
        omega
      rw [hsplit]
      ring
    have heven : a * 2 ^ (k - i) % 2 = 0 := by
      have hsplit : (2 : Nat) ^ (k - i) = 2 * 2 ^ (k - i - 1) := by
        rw [← Nat.pow_succ']
        congr 1
        omega
      have : a * 2 ^ (k - i) = 2 * (a * 2 ^ (k - i - 1)) := by
        rw [hsplit]
        ring
      rw [this]
      omega
    have key : (a * 2 ^ k + b) / 2 ^ i % 2 = b / 2 ^ i % 2 := by
      rw [hk, Nat.mul_add_div (Nat.two_pow_pos i)]
      omega
    rw [key]
  · have h2 : b.testBit i = false :=
      Nat.testBit_lt_two_pow (lt_of_lt_of_le hb (Nat.pow_le_pow_right (by omega) hik))
    rw [h2, Bool.or_false, Nat.testBit_shiftLeft, Nat.shiftLeft_eq,
      Nat.testBit_to_div_mod, Nat.testBit_to_div_mod]
    have hge : decide (i ≥ k) = true := by simp [hik]
    rw [hge, Bool.true_and]
    have key : (a * 2 ^ k + b) / 2 ^ i = a / 2 ^ (i - k) := by
      have h3 : (a * 2 ^ k + b) / 2 ^ k = a := by
        rw [Nat.mul_comm, Nat.mul_add_div (Nat.two_pow_pos k), Nat.div_eq_of_lt hb,
          Nat.add_zero]
      have h4 : (2 : Nat) ^ i = 2 ^ k * 2 ^ (i - k) := by
        rw [← Nat.pow_add]
        congr 1
        omega
      rw [h4, ← Nat.div_div_eq_div_mul, h3]
    rw [key]

theorem crc16CCITT_lt (l : List Nat) : crc16CCITT l < 2 ^ 16 := by
  unfold crc16CCITT
  have : (0xFFFF : Nat) = 2 ^ 16 - 1 := by decide
  rw [this, Nat.and_pow_two_sub_one_eq_mod]
  exact Nat.mod_lt _ (by decide)

/-- Packing the three bounded fields with shifts and ors is plain positional
    arithmetic. -/
theorem pack_eq_add {ts e c : Nat} (hts : ts < 2 ^ 48) (he : e < 2 ^ 64) (hc : c < 2 ^ 16) :
    (ts <<< SHIFT_FOR_TIMESTAMP) ||| (e <<< SHIFT_FOR_ENTROPY) ||| c
      = ts * 2 ^ 80 + e * 2 ^ 16 + c := by
  show (ts <<< 80) ||| (e <<< 16) ||| c = _
  have h1 : (e <<< 16) ||| c = e * 2 ^ 16 + c := by
    rw [shiftLeft_or_eq_add hc, Nat.shiftLeft_eq]
  have hlow : e * 2 ^ 16 + c < 2 ^ 80 := by
    have : (e + 1) * 2 ^ 16 ≤ 2 ^ 64 * 2 ^ 16 := Nat.mul_le_mul_right _ (by omega)
    have h16 : (2 : Nat) ^ 64 * 2 ^ 16 = 2 ^ 80 := by norm_num
    omega
  rw [Nat.or_assoc, h1, shiftLeft_or_eq_add hlow, Nat.shiftLeft_eq]
  omega

/-! ## Byte packing -/

theorem bigintToBytes_length (v n : Nat) : (bigintToBytes v n).length = n := by
  induction n generalizing v with
  | zero => rfl
  | succ m ih =>
    simp [bigintToBytes, ih]

theorem bigintToBytes_lt (v n : Nat) : ∀ b ∈ bigintToBytes v n, b < 256 := by
  induction n generalizing v with
  | zero => intro b hb; simp [bigintToBytes] at hb
  | succ m ih =>
    intro b hb
    simp only [bigintToBytes, List.mem_append, List.mem_singleton] at hb
    rcases hb with hb | hb
    · exact ih _ _ hb
    · subst hb
      have : (0xFF : Nat) = 2 ^ 8 - 1 := by decide
      rw [this, Nat.and_pow_two_sub_one_eq_mod]
      exact Nat.mod_lt _ (by decide)

theorem bytesToNat_append_one (l : List Nat) (b : Nat) :
    bytesToNat (l ++ [b]) = bytesToNat l * 256 + b := by
  unfold bytesToNat
  rw [List.foldl_append]
  rfl

theorem bytesToNat_bigintToBytes (v n : Nat) :
    bytesToNat (bigintToBytes v n) = v % 2 ^ (8 * n) := by
  induction n generalizing v with
  | zero => simp [bigintToBytes, bytesToNat, Nat.mod_one]
  | succ m ih =>
    simp only [bigintToBytes]
    rw [bytesToNat_append_one, ih]
    have hff : (0xFF : Nat) = 2 ^ 8 - 1 := by decide
    rw [hff, Nat.and_pow_two_sub_one_eq_mod, Nat.shiftRight_eq_div_pow]
    have hpow : (2 : Nat) ^ (8 * (m + 1)) = 2 ^ 8 * 2 ^ (8 * m) := by
      rw [← Nat.pow_add]
      congr 1
      omega
    rw [hpow, Nat.mod_mul]
    have h8 : (2 : Nat) ^ 8 = 256 := by decide
    rw [h8]
    omega

/-- C10: bigintToBytes is total, returns exactly n bytes (each < 256) whose
    big-endian value is v mod 2^(8n); overlong values are silently truncated. -/
theorem bigintToBytes_spec (v n : Nat) :
    (bigintToBytes v n).length = n
      ∧ bytesToNat (bigintToBytes v n) = v % 2 ^ (8 * n)
      ∧ ∀ b ∈ bigintToBytes v n, b < 256 :=
  ⟨bigintToBytes_length v n, bytesToNat_bigintToBytes v n, bigintToBytes_lt v n⟩

/-- C8 counterexample: the CRC of the 14 zero bytes is not 0x1D0F
    (0x1D0F is the value this CRC takes on two zero bytes). -/
theorem crc16_zero14_ne_1D0F :
    crc16CCITT (List.replicate 14 0) ≠ 0x1D0F ∧ crc16CCITT (List.replicate 2 0) = 0x1D0F := by
  constructor
  · decide
  · decide

/-- C8 amended: the CRC-16 of the 14-byte all-zero payload
    (timestamp = 0, entropy = 0) is the fixed value 0xA96A. -/
theorem crc16_zero14_eq :
    crc16CCITT (bigintToBytes 0 6 ++ bigintToBytes 0 8) = 0xA96A
      ∧ crc16CCITT (List.replicate 14 0) = 0xA96A := by
  constructor
  · decide
  · decide

/-! ## Alphabet facts (finite checks) -/

theorem alphaChar_mem : ∀ i : Fin 62, alphaChar i.val ∈ ALPHABET := by decide

theorem digitVal_alphaChar : ∀ i : Fin 62, digitVal (alphaChar i.val) = i.val := by decide

theorem digitVal_lt_of_mem : ∀ c ∈ ALPHABET, digitVal c < 62 := by decide

theorem alphaChar_digitVal_of_mem : ∀ c ∈ ALPHABET, alphaChar (digitVal c) = c := by decide

theorem alphaChar_lt_mono : ∀ i j : Fin 62, i.val < j.val → alphaChar i.val < alphaChar j.val := by
  decide

theorem isAlnum_of_mem : ∀ c ∈ ALPHABET, isAlnum c = true := by decide

theorem BASE_eq : BASE = 62 := by decide

theorem indexIn_isSome_iff (c : Char) : ∀ (l : List Char) (i : Nat),
    (indexIn c l i).isSome ↔ c ∈ l := by
  intro l
  induction l with
  | nil => intro i; simp [indexIn]
  | cons d rest ih =>
    intro i
    by_cases hcd : c = d
    · subst hcd
      simp [indexIn]
    · simp [indexIn, hcd, ih]

theorem ALPHABET_INDEX_isSome_iff (c : Char) : (ALPHABET_INDEX c).isSome ↔ c ∈ ALPHABET :=
  indexIn_isSome_iff c ALPHABET 0

theorem ALPHABET_INDEX_eq_digitVal {c : Char} (hc : c ∈ ALPHABET) :
    ALPHABET_INDEX c = some (digitVal c) := by
  have h := (ALPHABET_INDEX_isSome_iff c).mpr hc
  cases hx : ALPHABET_INDEX c with
  | none => rw [hx] at h; simp at h
  | some v => simp [digitVal, hx]

theorem mem_of_isAlnum {c : Char} (h : isAlnum c = true) : c ∈ ALPHABET := by
  have hlt : c.toNat < 123 := by
    simp only [isAlnum, Bool.or_eq_true, Bool.and_eq_true, decide_eq_true_eq] at h
    omega
  have hofn : ∀ n : Fin 123, isAlnum (Char.ofNat n.val) = true → Char.ofNat n.val ∈ ALPHABET := by
    decide
  have hc := hofn ⟨c.toNat, hlt⟩
  rw [Char.ofNat_toNat] at hc
  exact hc h

/-! ## Base62 encoding/decoding lemmas -/

theorem encodeRec_append (n : Nat) : ∀ l : List Char, encodeRec n l = encodeRec n [] ++ l := by
  induction n using Nat.strong_induction_on with
  | _ n ih =>
    intro l
    by_cases h : n = 0
    · subst h
      simp [encodeRec]
    · have hlt : n / BASE < n := Nat.div_lt_self (Nat.pos_of_ne_zero h) (by decide)
      rw [encodeRec, dif_neg h, ih _ hlt (alphaChar (n % BASE) :: l)]
      conv_rhs => rw [encodeRec, dif_neg h, ih _ hlt (alphaChar (n % BASE) :: [])]
      simp

theorem encodeRec_length (n : Nat) : (encodeRec n []).length = numDigits n := by
  induction n using Nat.strong_induction_on with
  | _ n ih =>
    by_cases h : n = 0
    · subst h
      simp [encodeRec, numDigits]
    · have hlt : n / BASE < n := Nat.div_lt_self (Nat.pos_of_ne_zero h) (by decide)
      rw [encodeRec, dif_neg h, encodeRec_append, numDigits, dif_neg h]
      simp [ih _ hlt]

theorem numDigits_le : ∀ (k n : Nat), n < BASE ^ k → numDigits n ≤ k := by
  intro k
  induction k with
  | zero =>
    intro n hn
    have h0 : n = 0 := by
      rw [Nat.pow_zero] at hn
      omega
    subst h0
    simp [numDigits]
  | succ m ih =>
    intro n hn
    by_cases h : n = 0
    · subst h
      simp [numDigits]
    · rw [numDigits, dif_neg h]
      have hdiv : n / BASE < BASE ^ m := by
        rw [Nat.div_lt_iff_lt_mul (by decide : 0 < BASE)]
        calc n < BASE ^ (m + 1) := hn
          _ = BASE ^ m * BASE := by rw [Nat.pow_succ]
      exact Nat.succ_le_succ (ih _ hdiv)

theorem encodeRec_mem (n : Nat) : ∀ c ∈ encodeRec n [], c ∈ ALPHABET := by
  induction n using Nat.strong_induction_on with
  | _ n ih =>
    intro c hc
    by_cases h : n = 0
    · subst h
      simp [encodeRec] at hc
    · have hlt : n / BASE < n := Nat.div_lt_self (Nat.pos_of_ne_zero h) (by decide)
      rw [encodeRec, dif_neg h, encodeRec_append] at hc
      rcases List.mem_append.mp hc with h1 | h1
      · exact ih _ hlt c h1
      · have hm : n % BASE < 62 := by
          have h1 : n % BASE < BASE := Nat.mod_lt n (by decide)
          have hb := BASE_eq
          omega
        have : c = alphaChar (n % BASE) := by
          simpa using h1
        subst this
        exact alphaChar_mem ⟨n % BASE, hm⟩

theorem listVal_nil (a : Nat) : listVal a [] = a := rfl

theorem listVal_cons (a : Nat) (c : Char) (l : List Char) :
    listVal a (c :: l) = listVal (a * BASE + digitVal c) l := rfl

theorem listVal_append (a : Nat) (l1 l2 : List Char) :
    listVal a (l1 ++ l2) = listVal (listVal a l1) l2 := by
  unfold listVal
  rw [List.foldl_append]

theorem listVal_encodeRec (n : Nat) : ∀ (l : List Char) (a : Nat),
    listVal a (encodeRec n l) = listVal (a * BASE ^ numDigits n + n) l := by
  induction n using Nat.strong_induction_on with
  | _ n ih =>
    intro l a
    by_cases h : n = 0
    · subst h
      simp [encodeRec, numDigits]
    · have hlt : n / BASE < n := Nat.div_lt_self (Nat.pos_of_ne_zero h) (by decide)
      rw [encodeRec, dif_neg h, ih _ hlt, listVal_cons]
      conv_rhs => rw [numDigits, dif_neg h]
      have hm : n % BASE < 62 := by
        have h1 : n % BASE < BASE := Nat.mod_lt n (by decide)
        have hb := BASE_eq
        omega
      have hdig : digitVal (alphaChar (n % BASE)) = n % BASE :=
        digitVal_alphaChar ⟨n % BASE, hm⟩
      rw [hdig]
      congr 1
      have hdm : BASE * (n / BASE) + n % BASE = n := Nat.div_add_mod n BASE
      calc (a * BASE ^ numDigits (n / BASE) + n / BASE) * BASE + n % BASE
          = a * (BASE ^ numDigits (n / BASE) * BASE) + (BASE * (n / BASE) + n % BASE) := by
            ring
        _ = a * BASE ^ (numDigits (n / BASE) + 1) + n := by rw [hdm, Nat.pow_succ]

theorem listVal_replicate_zero : ∀ k, listVal 0 (List.replicate k '0') = 0 := by
  intro k
  induction k with
  | zero => rfl
  | succ m ih =>
    rw [List.replicate_succ, listVal_cons]
    have h0 : digitVal '0' = 0 := by decide
    simpa [h0] using ih

theorem decodeGo_ok : ∀ (l : List Char), (∀ c ∈ l, c ∈ ALPHABET) → ∀ (i a : Nat),
    decodeGo i a l = .ok (listVal a l) := by
  intro l
  induction l with
  | nil => intro _ i a; rfl
  | cons c rest ih =>
    intro hmem i a
    have hc : c ∈ ALPHABET := hmem c (List.mem_cons_self _ _)
    simp only [decodeGo, ALPHABET_INDEX_eq_digitVal hc]
    rw [ih (fun d hd => hmem d (List.mem_cons_of_mem _ hd))]
    rfl

theorem mem_of_decodeGo_ok : ∀ (l : List Char) (i a v : Nat),
    decodeGo i a l = .ok v → ∀ c ∈ l, c ∈ ALPHABET := by
  intro l
  induction l with
  | nil => intro i a v _ c hc; simp at hc
  | cons d rest ih =>
    intro i a v h c hc
    simp only [decodeGo] at h
    cases hidx : ALPHABET_INDEX d with
    | none => rw [hidx] at h; simp at h
    | some w =>
      rw [hidx] at h
      rcases List.mem_cons.mp hc with rfl | hcr
      · exact (ALPHABET_INDEX_isSome_iff c).mp (by rw [hidx]; rfl)
      · exact ih _ _ _ h c hcr

theorem listVal_encodeBase62 (v : Nat) : listVal 0 (encodeBase62 v) = v := by
  by_cases hv : v = 0
  · subst hv
    decide
  · rw [encodeBase62, if_neg hv]
    unfold padStartZeros
    rw [listVal_append, listVal_replicate_zero, listVal_encodeRec, listVal_nil]
    simp

theorem encodeBase62_mem (v : Nat) : ∀ c ∈ encodeBase62 v, c ∈ ALPHABET := by
  intro c hc
  by_cases hv : v = 0
  · subst hv
    have hall : ∀ c ∈ encodeBase62 0, c ∈ ALPHABET := by decide
    exact hall c hc
  · rw [encodeBase62, if_neg hv] at hc
    unfold padStartZeros at hc
    rcases List.mem_append.mp hc with h | h
    · have h0 : c = '0' := List.eq_of_mem_replicate h
      subst h0
      decide
    · exact encodeRec_mem v c h

theorem encodeBase62_length {v : Nat} (hv : v < BASE ^ 22) : (encodeBase62 v).length = 22 := by
  by_cases h0 : v = 0
  · subst h0
    decide
  · rw [encodeBase62, if_neg h0]
    unfold padStartZeros
    have hle : (encodeRec v []).length ≤ 22 := by
      rw [encodeRec_length]
      exact numDigits_le 22 v hv
    have hid : ID_LENGTH = 22 := rfl
    simp only [List.length_append, List.length_replicate, hid]
    omega

theorem decodeBase62_encodeBase62 (v : Nat) : decodeBase62 (encodeBase62 v) = .ok v := by
  unfold decodeBase62
  rw [decodeGo_ok _ (encodeBase62_mem v), listVal_encodeBase62]

theorem two_pow_128_lt_base_pow_22 : 2 ^ 128 < BASE ^ 22 := by
  rw [BASE_eq]
  norm_num

/-- C2: Base62 round-trip — for every unsigned 128-bit integer v,
    decodeBase62 (encodeBase62 v) = ok v. -/
theorem base62_round_trip (v : Nat) (_hv : v < 2 ^ 128) :
    decodeBase62 (encodeBase62 v) = .ok v :=
  decodeBase62_encodeBase62 v

theorem base62_round_trip_witness :
    (123456789123456789 : Nat) < 2 ^ 128
      ∧ decodeBase62 (encodeBase62 123456789123456789) = .ok 123456789123456789 :=
  ⟨by norm_num, base62_round_trip 123456789123456789 (by norm_num)⟩

/-- C7: fixed-width rendering — every 128-bit value encodes to exactly 22
    alphabet characters, left-padded with the zero symbol: every position
    before the significant-digit block (the numDigits v trailing characters)
    holds '0', and 0 encodes to 22 zero symbols. -/
theorem encodeBase62_fixed_width (v : Nat) (hv : v < 2 ^ 128) :
    (encodeBase62 v).length = 22
      ∧ (∀ c ∈ encodeBase62 v, c ∈ ALPHABET)
      ∧ (∀ i, i < 22 - numDigits v → (encodeBase62 v)[i]? = some '0')
      ∧ encodeBase62 0 = List.replicate 22 '0' := by
  have hvb : v < BASE ^ 22 := lt_trans hv two_pow_128_lt_base_pow_22
  refine ⟨encodeBase62_length hvb, encodeBase62_mem v, ?_, by decide⟩
  by_cases h0 : v = 0
  · subst h0
    intro i hi
    have hall : ∀ i, i < 22 → (encodeBase62 0)[i]? = some '0' := by decide
    apply hall
    simpa [numDigits] using hi
  · intro i hi
    rw [encodeBase62, if_neg h0]
    unfold padStartZeros
    have hlenr : (encodeRec v []).length = numDigits v := encodeRec_length v
    have hi' : i < (List.replicate (ID_LENGTH - (encodeRec v []).length) '0').length := by
      have hid : ID_LENGTH = 22 := rfl
      rw [List.length_replicate, hlenr, hid]
      omega
    rw [List.getElem?_append_left hi']
    apply List.getElem?_replicate_of_lt
    have hid : ID_LENGTH = 22 := rfl
    rw [hlenr, hid]
    omega

theorem encodeBase62_fixed_width_witness :
    (9 : Nat) < 2 ^ 128 ∧ (encodeBase62 9).length = 22 :=
  ⟨by norm_num, (encodeBase62_fixed_width 9 (by norm_num)).1⟩

/-! ## Parse outcome lemmas -/

theorem parse_eq_invalid_length {s : List Char} (h : s.length ≠ ID_LENGTH) :
    parseSolidId s = { id := s, valid := false, status := .INVALID_LENGTH } := by
  unfold parseSolidId
  rw [if_pos h]

theorem parse_eq_invalid_format {s : List Char} (h1 : s.length = ID_LENGTH)
    (h2 : s.all isAlnum = false) :
    parseSolidId s = { id := s, valid := false, status := .INVALID_FORMAT } := by
  unfold parseSolidId
  rw [if_neg (by simp [h1]), if_pos (by simp [h2])]

theorem parse_eq_decode_error {s : List Char} {msg : String} (h1 : s.length = ID_LENGTH)
    (h2 : s.all isAlnum = true) (h3 : decodeBase62 s = .error msg) :
    parseSolidId s
      = { id := s, valid := false, status := .DECODE_ERROR, errorMessage := some msg } := by
  unfold parseSolidId
  rw [if_neg (by simp [h1]), if_neg (by simp [h2]), h3]

theorem parse_eq_invalid_checksum {s : List Char} {v : Nat} (h1 : s.length = ID_LENGTH)
    (h2 : s.all isAlnum = true) (h3 : decodeBase62 s = .ok v)
    (h4 : (extractFieldsFromBigint v).checksum16 ≠ (extractFieldsFromBigint v).computedChecksum16) :
    parseSolidId s
      = { id := s, valid := false, status := .INVALID_CHECKSUM
          timestamp48 := some (extractFieldsFromBigint v).timestamp48
          entropy64 := some (extractFieldsFromBigint v).entropy64
          checksum16 := some (extractFieldsFromBigint v).checksum16
          computedChecksum16 := some (extractFieldsFromBigint v).computedChecksum16 } := by
  unfold parseSolidId
  rw [if_neg (by simp [h1]), if_neg (by simp [h2]), h3]
  exact if_pos h4

theorem parse_eq_ok {s : List Char} {v : Nat} (h1 : s.length = ID_LENGTH)
    (h2 : s.all isAlnum = true) (h3 : decodeBase62 s = .ok v)
    (h4 : (extractFieldsFromBigint v).checksum16 = (extractFieldsFromBigint v).computedChecksum16) :
    parseSolidId s
      = { id := s, valid := true, status := .OK
          timestampMs := some (((extractFieldsFromBigint v).timestamp48 : Int) + EPOCH_MS)
          timestamp48 := some (extractFieldsFromBigint v).timestamp48
          entropy64 := some (extractFieldsFromBigint v).entropy64
          checksum16 := some (extractFieldsFromBigint v).checksum16
          computedChecksum16 := some (extractFieldsFromBigint v).computedChecksum16 } := by
  unfold parseSolidId
  rw [if_neg (by simp [h1]), if_neg (by simp [h2]), h3]
  exact if_neg (by simp [h4])

theorem parse_valid_iff_ok (s : List Char) :
    (parseSolidId s).valid = true ↔ (parseSolidId s).status = .OK := by
  by_cases h1 : s.length = ID_LENGTH
  · cases hall : s.all isAlnum with
    | false =>
      rw [parse_eq_invalid_format h1 hall]
      simp
    | true =>
      cases hdec : decodeBase62 s with
      | error msg =>
        rw [parse_eq_decode_error h1 hall hdec]
        simp
      | ok v =>
        by_cases h4 : (extractFieldsFromBigint v).checksum16
            = (extractFieldsFromBigint v).computedChecksum16
        · rw [parse_eq_ok h1 hall hdec h4]
          simp
        · rw [parse_eq_invalid_checksum h1 hall hdec h4]
          simp
  · rw [parse_eq_invalid_length h1]
    simp

/-- C6: parseSolidId is a total state machine terminal at the first failing
    check: INVALID_LENGTH when length ≠ 22, else INVALID_FORMAT when some
    character is outside [0-9A-Za-z], else DECODE_ERROR when decoding fails,
    else INVALID_CHECKSUM on mismatch, else OK; valid only in the OK case. -/
theorem parse_state_machine (s : List Char) :
    ((parseSolidId s).valid = true ↔ (parseSolidId s).status = .OK)
    ∧ (s.length ≠ 22 →
        (parseSolidId s).status = .INVALID_LENGTH ∧ (parseSolidId s).valid = false)
    ∧ (s.length = 22 → (∃ c ∈ s, isAlnum c = false) →
        (parseSolidId s).status = .INVALID_FORMAT ∧ (parseSolidId s).valid = false)
    ∧ (s.length = 22 → (∀ c ∈ s, isAlnum c = true) → ∀ msg, decodeBase62 s = .error msg →
        (parseSolidId s).status = .DECODE_ERROR ∧ (parseSolidId s).valid = false)
    ∧ (s.length = 22 → (∀ c ∈ s, isAlnum c = true) → ∀ v, decodeBase62 s = .ok v →
        (extractFieldsFromBigint v).checksum16 ≠ (extractFieldsFromBigint v).computedChecksum16 →
        (parseSolidId s).status = .INVALID_CHECKSUM ∧ (parseSolidId s).valid = false)
    ∧ (s.length = 22 → (∀ c ∈ s, isAlnum c = true) → ∀ v, decodeBase62 s = .ok v →
        (extractFieldsFromBigint v).checksum16 = (extractFieldsFromBigint v).computedChecksum16 →
        (parseSolidId s).status = .OK ∧ (parseSolidId s).valid = true) := by
  refine ⟨parse_valid_iff_ok s, ?_, ?_, ?_, ?_, ?_⟩
  · intro hlen
    rw [parse_eq_invalid_length hlen]
    exact ⟨rfl, rfl⟩
  · intro hlen hex
    have hall : s.all isAlnum = false := by
      cases hall : s.all isAlnum with
      | false => rfl
      | true =>
        obtain ⟨c, hc, hcf⟩ := hex
        have := List.all_eq_true.mp hall c hc
        simp [hcf] at this
    rw [parse_eq_invalid_format hlen hall]
    exact ⟨rfl, rfl⟩
  · intro hlen hfor msg hdec
    have hall : s.all isAlnum = true := List.all_eq_true.mpr (by simpa using hfor)
    rw [parse_eq_decode_error hlen hall hdec]
    exact ⟨rfl, rfl⟩
  · intro hlen hfor v hdec hck
    have hall : s.all isAlnum = true := List.all_eq_true.mpr (by simpa using hfor)
    rw [parse_eq_invalid_checksum hlen hall hdec hck]
    exact ⟨rfl, rfl⟩
  · intro hlen hfor v hdec hck
    have hall : s.all isAlnum = true := List.all_eq_true.mpr (by simpa using hfor)
    rw [parse_eq_ok hlen hall hdec hck]
    exact ⟨rfl, rfl⟩

theorem parse_state_machine_witness :
    (parseSolidId ['A']).status = .INVALID_LENGTH ∧ (parseSolidId ['A']).valid = false :=
  (parse_state_machine ['A']).2.1 (by decide)

/-! ## Packing and extraction -/

theorem extract_of_pack {ts e c : Nat} (he : e < 2 ^ 64) (hc : c < 2 ^ 16) :
    extractFieldsFromBigint (ts * 2 ^ 80 + e * 2 ^ 16 + c)
      = { timestamp48 := ts, entropy64 := e, checksum16 := c
          computedChecksum16 := crc16CCITT (bigintToBytes ts 6 ++ bigintToBytes e 8) } := by
  have hck : (ts * 2 ^ 80 + e * 2 ^ 16 + c) &&& MASK_CHECKSUM = c := by
    have hmask : MASK_CHECKSUM = 2 ^ 16 - 1 := by decide
    rw [hmask, Nat.and_pow_two_sub_one_eq_mod]
    have hX : ts * 2 ^ 80 + e * 2 ^ 16 + c = 2 ^ 16 * (ts * 2 ^ 64 + e) + c := by ring
    rw [hX, Nat.mul_add_mod, Nat.mod_eq_of_lt hc]
  have hlow : e * 2 ^ 16 + c < 2 ^ 80 := by
    have h1 : (e + 1) * 2 ^ 16 ≤ 2 ^ 64 * 2 ^ 16 := Nat.mul_le_mul_right _ (by omega)
    have h2 : (2 : Nat) ^ 64 * 2 ^ 16 = 2 ^ 80 := by norm_num
    omega
  have hts48 : (ts * 2 ^ 80 + e * 2 ^ 16 + c) >>> SHIFT_FOR_TIMESTAMP = ts := by
    have hsh : SHIFT_FOR_TIMESTAMP = 80 := rfl
    rw [hsh, Nat.shiftRight_eq_div_pow]
    have hX : ts * 2 ^ 80 + e * 2 ^ 16 + c = 2 ^ 80 * ts + (e * 2 ^ 16 + c) := by ring
    rw [hX, Nat.mul_add_div (Nat.two_pow_pos 80), Nat.div_eq_of_lt hlow, Nat.add_zero]
  have hent : ((ts * 2 ^ 80 + e * 2 ^ 16 + c) >>> SHIFT_FOR_ENTROPY) &&& MASK_ENTROPY = e := by
    have hsh : SHIFT_FOR_ENTROPY = 16 := rfl
    have hmask : MASK_ENTROPY = 2 ^ 64 - 1 := by decide
    rw [hsh, hmask, Nat.shiftRight_eq_div_pow, Nat.and_pow_two_sub_one_eq_mod]
    have hX : ts * 2 ^ 80 + e * 2 ^ 16 + c = 2 ^ 16 * (2 ^ 64 * ts + e) + c := by ring
    rw [hX, Nat.mul_add_div (Nat.two_pow_pos 16), Nat.div_eq_of_lt hc, Nat.add_zero,
      Nat.mul_add_mod, Nat.mod_eq_of_lt he]
  simp only [extractFieldsFromBigint]
  rw [hck, hts48, hent]

theorem generate_eq (env : GenEnv) (t : Int) (e : Nat)
    (h0 : EPOCH_MS ≤ t) (h1 : t - EPOCH_MS ≤ MAX_TIMESTAMP_MS_48) :
    generateSolidId env { nowMs := some t, rng64 := some e, cryptoAvailable := true }
      = .ok (encodeBase62 ((t - EPOCH_MS).toNat * 2 ^ 80 + (e % 2 ^ 64) * 2 ^ 16
          + crc16CCITT (bigintToBytes (t - EPOCH_MS).toNat 6 ++ bigintToBytes (e % 2 ^ 64) 8))) := by
  have hcr : getCrypto env { nowMs := some t, rng64 := some e, cryptoAvailable := true }
      = .ok () := rfl
  have hmaxv : MAX_TIMESTAMP_MS_48 = (281474976710655 : Int) := by decide
  have hcond : ¬ (t - EPOCH_MS < 0 ∨ t - EPOCH_MS > MAX_TIMESTAMP_MS_48) := by
    rw [hmaxv] at h1 ⊢
    omega
  have htsn : (t - EPOCH_MS).toNat < 2 ^ 48 := by
    rw [hmaxv] at h1
    omega
  have hmaskT : TIMESTAMP_MASK = 2 ^ 48 - 1 := by decide
  have hmaskE : MASK_ENTROPY = 2 ^ 64 - 1 := by decide
  unfold generateSolidId
  rw [hcr]
  simp only [Option.getD]
  rw [if_neg hcond]
  congr 1
  congr 1
  rw [hmaskT, hmaskE, Nat.and_pow_two_sub_one_eq_mod, Nat.and_pow_two_sub_one_eq_mod,
    Nat.mod_eq_of_lt htsn]
  exact pack_eq_add htsn (Nat.mod_lt _ (by norm_num)) (crc16CCITT_lt _)

/-- C1: generate/parse round-trip with the checksum invariant: for an
    in-range time t and any entropy e, parsing the generated identifier
    yields valid = OK with timestampMs = t, timestamp48 = t - EPOCH_MS,
    entropy64 = e mod 2^64 and both checksums equal to the CRC-16 of the
    14-byte big-endian payload timestamp(6) || entropy(8). -/
theorem generate_parse_round_trip (env : GenEnv) (t : Int) (e : Nat)
    (h0 : EPOCH_MS ≤ t) (h1 : t - EPOCH_MS ≤ 2 ^ 48 - 1) :
    ∃ s, generateSolidId env { nowMs := some t, rng64 := some e, cryptoAvailable := true } = .ok s
      ∧ (parseSolidId s).valid = true
      ∧ (parseSolidId s).status = .OK
      ∧ (parseSolidId s).timestampMs = some t
      ∧ (parseSolidId s).timestamp48 = some (t - EPOCH_MS).toNat
      ∧ (parseSolidId s).entropy64 = some (e % 2 ^ 64)
      ∧ (parseSolidId s).checksum16
          = some (crc16CCITT (bigintToBytes (t - EPOCH_MS).toNat 6
              ++ bigintToBytes (e % 2 ^ 64) 8))
      ∧ (parseSolidId s).computedChecksum16
          = some (crc16CCITT (bigintToBytes (t - EPOCH_MS).toNat 6
              ++ bigintToBytes (e % 2 ^ 64) 8)) := by
  have hpow : ((2 : Int) ^ 48 - 1) = 281474976710655 := by norm_num
  have hmaxv : MAX_TIMESTAMP_MS_48 = (281474976710655 : Int) := by decide
  have h1' : t - EPOCH_MS ≤ MAX_TIMESTAMP_MS_48 := by
    rw [hmaxv]
    rw [hpow] at h1
    exact h1
  have hgen := generate_eq env t e h0 h1'
  have htsn : (t - EPOCH_MS).toNat < 2 ^ 48 := by
    rw [hmaxv] at h1'
    omega
  have hent : e % 2 ^ 64 < 2 ^ 64 := Nat.mod_lt _ (by norm_num)
  have hcrc : crc16CCITT (bigintToBytes (t - EPOCH_MS).toNat 6 ++ bigintToBytes (e % 2 ^ 64) 8)
      < 2 ^ 16 := crc16CCITT_lt _
  set ts := (t - EPOCH_MS).toNat with hts_def
  set ent := e % 2 ^ 64 with hent_def
  set crc := crc16CCITT (bigintToBytes ts 6 ++ bigintToBytes ent 8) with hcrc_def
  set idv := ts * 2 ^ 80 + ent * 2 ^ 16 + crc with hidv_def
  have hid : idv < 2 ^ 128 := by
    have a1 : ts ≤ 2 ^ 48 - 1 := by omega
    have a2 : ent ≤ 2 ^ 64 - 1 := by omega
    have b1 : ts * 2 ^ 80 ≤ (2 ^ 48 - 1) * 2 ^ 80 := Nat.mul_le_mul_right _ a1
    have b2 : ent * 2 ^ 16 ≤ (2 ^ 64 - 1) * 2 ^ 16 := Nat.mul_le_mul_right _ a2
    have c1 : ((2 : Nat) ^ 48 - 1) * 2 ^ 80 = 2 ^ 128 - 2 ^ 80 := by norm_num
    have c2 : ((2 : Nat) ^ 64 - 1) * 2 ^ 16 = 2 ^ 80 - 2 ^ 16 := by norm_num
    have c3 : (2 : Nat) ^ 16 ≤ 2 ^ 80 := by norm_num
    have c4 : (2 : Nat) ^ 80 ≤ 2 ^ 128 := by norm_num
    omega
  have hvb : idv < BASE ^ 22 := lt_trans hid two_pow_128_lt_base_pow_22
  have hlen : (encodeBase62 idv).length = ID_LENGTH := encodeBase62_length hvb
  have hall : (encodeBase62 idv).all isAlnum = true := by
    apply List.all_eq_true.mpr
    intro c hc
    simpa using isAlnum_of_mem c (encodeBase62_mem idv c hc)
  have hdec : decodeBase62 (encodeBase62 idv) = .ok idv := decodeBase62_encodeBase62 idv
  have hext : extractFieldsFromBigint idv
      = { timestamp48 := ts, entropy64 := ent, checksum16 := crc
          computedChecksum16 := crc } := extract_of_pack hent hcrc
  have hck : (extractFieldsFromBigint idv).checksum16
      = (extractFieldsFromBigint idv).computedChecksum16 := by rw [hext]
  have hp := parse_eq_ok hlen hall hdec hck
  refine ⟨encodeBase62 idv, hgen, ?_⟩
  rw [hp]
  have htsInt : ((ts : Int) + EPOCH_MS) = t := by
    have hnn : (0 : Int) ≤ t - EPOCH_MS := by omega
    rw [hts_def, Int.toNat_of_nonneg hnn]
    ring
  simp [hext, htsInt]

theorem generate_parse_round_trip_witness :
    ∃ s, generateSolidId { globalCryptoAvailable := true, dateNowMs := 0, randHi := 0, randLo := 0 }
        { nowMs := some 485136000000, rng64 := some 0, cryptoAvailable := true } = .ok s
      ∧ (parseSolidId s).valid = true := by
  obtain ⟨s, hs, hv, _⟩ :=
    generate_parse_round_trip
      { globalCryptoAvailable := true, dateNowMs := 0, randHi := 0, randLo := 0 }
      485136000000 0 (by norm_num [EPOCH_MS]) (by norm_num [EPOCH_MS])
  exact ⟨s, hs, hv⟩

/-- C5: 48-bit timestamp boundary — with a crypto source available,
    nowMs = EPOCH_MS + (2^48 - 1) succeeds, nowMs = EPOCH_MS + 2^48 throws
    the out-of-range error, and any nowMs < EPOCH_MS throws it as well;
    the elapsed time is never clamped or wrapped into an identifier. -/
theorem timestamp_boundary (env : GenEnv) (hcr : env.globalCryptoAvailable = true) :
    (∃ s, generateSolidId env { nowMs := some (EPOCH_MS + (2 ^ 48 - 1)) } = .ok s)
    ∧ generateSolidId env { nowMs := some (EPOCH_MS + 2 ^ 48) }
        = .error "Invalid timestamp value (out of 48-bit range)"
    ∧ ∀ n : Int, n < EPOCH_MS →
        generateSolidId env { nowMs := some n }
          = .error "Invalid timestamp value (out of 48-bit range)" := by
  have hmaxv : MAX_TIMESTAMP_MS_48 = (281474976710655 : Int) := by decide
  have hg : ∀ x : Int, getCrypto env { nowMs := some x } = .ok () := by
    intro x
    unfold getCrypto
    simp [hcr]
  refine ⟨?_, ?_, ?_⟩
  · unfold generateSolidId
    rw [hg]
    simp only [Option.getD]
    rw [if_neg (by rw [hmaxv]; omega)]
    exact ⟨_, rfl⟩
  · unfold generateSolidId
    rw [hg]
    simp only [Option.getD]
    rw [if_pos (by rw [hmaxv]; omega)]
  · intro n hn
    unfold generateSolidId
    rw [hg]
    simp only [Option.getD]
    rw [if_pos (by rw [hmaxv]; omega)]

theorem timestamp_boundary_witness :
    generateSolidId { globalCryptoAvailable := true, dateNowMs := 0, randHi := 0, randLo := 0 }
        { nowMs := some (EPOCH_MS + 2 ^ 48) }
      = .error "Invalid timestamp value (out of 48-bit range)" :=
  (timestamp_boundary
    { globalCryptoAvailable := true, dateNowMs := 0, randHi := 0, randLo := 0 } rfl).2.1

/-- C9 counterexample: with no crypto source configured at all, supplying a
    deterministic rng64 override and an in-range frozen time still fails with
    the no-crypto error — getCrypto is resolved before rng64 is consulted. -/
theorem rng64_without_crypto_fails :
    generateSolidId
        { globalCryptoAvailable := false, dateNowMs := 0, randHi := 0, randLo := 0 }
        { nowMs := some EPOCH_MS, rng64 := some 0 }
      = .error "Crypto API is not available in this environment; pass options.crypto or use Node >=18 / modern browsers." :=
  rfl

/-- C9 amended: generateSolidId resolves a crypto implementation first, so it
    fails with the no-crypto error whenever none is configured even if rng64
    is supplied; when a crypto source is available, a supplied rng64 fully
    determines the result (independent of the environment's random draws and
    clock), and generation succeeds for an in-range timestamp. -/
theorem rng64_determinism (env env2 : GenEnv) (t : Int) (e : Nat)
    (h0 : EPOCH_MS ≤ t) (h1 : t - EPOCH_MS ≤ 2 ^ 48 - 1) :
    (∃ s, generateSolidId env { nowMs := some t, rng64 := some e, cryptoAvailable := true }
        = .ok s)
    ∧ generateSolidId env { nowMs := some t, rng64 := some e, cryptoAvailable := true }
        = generateSolidId env2 { nowMs := some t, rng64 := some e, cryptoAvailable := true }
    ∧ (env.globalCryptoAvailable = false →
        generateSolidId env { nowMs := some t, rng64 := some e }
          = .error "Crypto API is not available in this environment; pass options.crypto or use Node >=18 / modern browsers.") := by
  have hmaxv : MAX_TIMESTAMP_MS_48 = (281474976710655 : Int) := by decide
  have h1' : t - EPOCH_MS ≤ MAX_TIMESTAMP_MS_48 := by
    rw [hmaxv]
    omega
  refine ⟨⟨_, generate_eq env t e h0 h1'⟩, ?_, ?_⟩
  · rw [generate_eq env t e h0 h1', generate_eq env2 t e h0 h1']
  · intro hnc
    unfold generateSolidId getCrypto
    simp [hnc]

theorem rng64_determinism_witness :
    generateSolidId { globalCryptoAvailable := true, dateNowMs := 0, randHi := 0, randLo := 0 }
        { nowMs := some 485136000000, rng64 := some 7, cryptoAvailable := true }
      = generateSolidId { globalCryptoAvailable := true, dateNowMs := 99, randHi := 5, randLo := 6 }
        { nowMs := some 485136000000, rng64 := some 7, cryptoAvailable := true } :=
  (rng64_determinism
    { globalCryptoAvailable := true, dateNowMs := 0, randHi := 0, randLo := 0 }
    { globalCryptoAvailable := true, dateNowMs := 99, randHi := 5, randLo := 6 }
    485136000000 7 (by norm_num [EPOCH_MS]) (by norm_num [EPOCH_MS])).2.1

theorem listVal_lower (l : List Char) : ∀ a, a * BASE ^ l.length ≤ listVal a l := by
  induction l with
  | nil => intro a; simp [listVal_nil]
  | cons c t ih =>
    intro a
    rw [listVal_cons]
    calc a * BASE ^ (c :: t).length = (a * BASE) * BASE ^ t.length := by
          rw [List.length_cons, Nat.pow_succ]
          ring
      _ ≤ (a * BASE + digitVal c) * BASE ^ t.length := Nat.mul_le_mul_right _ (by omega)
      _ ≤ listVal (a * BASE + digitVal c) t := ih _

theorem listVal_upper (l : List Char) (hmem : ∀ c ∈ l, c ∈ ALPHABET) : ∀ a,
    listVal a l < (a + 1) * BASE ^ l.length := by
  induction l with
  | nil =>
    intro a
    simpa [listVal_nil] using Nat.lt_succ_self a

  | cons c t ih =>
    intro a
    rw [listVal_cons]
    have hc : c ∈ ALPHABET := hmem c (List.mem_cons_self _ _)
    have hd : digitVal c < 62 := digitVal_lt_of_mem c hc
    have hb := BASE_eq
    calc listVal (a * BASE + digitVal c) t
        < (a * BASE + digitVal c + 1) * BASE ^ t.length :=
          ih (fun d hd' => hmem d (List.mem_cons_of_mem _ hd')) _
      _ ≤ ((a + 1) * BASE) * BASE ^ t.length := by
          apply Nat.mul_le_mul_right
          have h2 : (a + 1) * BASE = a * BASE + BASE := by ring
          omega
      _ = (a + 1) * BASE ^ (c :: t).length := by
          rw [List.length_cons, Nat.pow_succ]
          ring

theorem lex_of_listVal_lt : ∀ (l0 : List Char) (l1 : List Char) (a : Nat),
    l0.length = l1.length →
    (∀ c ∈ l0, c ∈ ALPHABET) → (∀ c ∈ l1, c ∈ ALPHABET) →
    listVal a l0 < listVal a l1 → List.Lex (· < ·) l0 l1 := by
  intro l0
  induction l0 with
  | nil =>
    intro l1 a hlen _ _ hv
    cases l1 with
    | nil => simp [listVal_nil] at hv
    | cons c1 t1 => simp at hlen
  | cons c0 t0 ih =>
    intro l1 a hlen hm0 hm1 hv
    cases l1 with
    | nil => simp at hlen
    | cons c1 t1 =>
      have hc0 : c0 ∈ ALPHABET := hm0 _ (List.mem_cons_self _ _)
      have hc1 : c1 ∈ ALPHABET := hm1 _ (List.mem_cons_self _ _)
      have hd0 : digitVal c0 < 62 := digitVal_lt_of_mem _ hc0
      have hd1 : digitVal c1 < 62 := digitVal_lt_of_mem _ hc1
      have hlen' : t0.length = t1.length := by simpa using hlen
      rcases Nat.lt_trichotomy (digitVal c0) (digitVal c1) with hlt | heq | hgt
      · have hcc : c0 < c1 := by
          have h0 := alphaChar_digitVal_of_mem c0 hc0
          have h1 := alphaChar_digitVal_of_mem c1 hc1
          have hmono := alphaChar_lt_mono ⟨digitVal c0, hd0⟩ ⟨digitVal c1, hd1⟩ hlt
          rwa [h0, h1] at hmono
        exact List.Lex.rel hcc
      · have hceq : c0 = c1 := by
          have h0 := alphaChar_digitVal_of_mem c0 hc0
          have h1 := alphaChar_digitVal_of_mem c1 hc1
          rw [← h0, ← h1, heq]
        subst hceq
        apply List.Lex.cons
        apply ih t1 (a * BASE + digitVal c0) hlen'
          (fun d hd => hm0 d (List.mem_cons_of_mem _ hd))
          (fun d hd => hm1 d (List.mem_cons_of_mem _ hd))
        rw [listVal_cons, listVal_cons] at hv
        exact hv
      · exfalso
        rw [listVal_cons, listVal_cons] at hv
        have hub := listVal_upper t1 (fun d hd => hm1 d (List.mem_cons_of_mem _ hd))
          (a * BASE + digitVal c1)
        have hlb := listVal_lower t0 (a * BASE + digitVal c0)
        have hle : (a * BASE + digitVal c1 + 1) * BASE ^ t1.length
            ≤ (a * BASE + digitVal c0) * BASE ^ t0.length := by
          rw [hlen']
          exact Nat.mul_le_mul_right _ (by omega)
        omega

/-- C3: sortability — identifiers generated at strictly increasing in-range
    times (whatever the entropies) compare strictly in lexicographic
    code-point order. -/
theorem sortability (env : GenEnv) (t0 t1 : Int) (e0 e1 : Nat) (s0 s1 : List Char)
    (h0 : EPOCH_MS ≤ t0) (hlt : t0 < t1) (h1 : t1 - EPOCH_MS ≤ 2 ^ 48 - 1)
    (hg0 : generateSolidId env { nowMs := some t0, rng64 := some e0, cryptoAvailable := true }
      = .ok s0)
    (hg1 : generateSolidId env { nowMs := some t1, rng64 := some e1, cryptoAvailable := true }
      = .ok s1) :
    List.Lex (· < ·) s0 s1 := by
  have h0' : EPOCH_MS ≤ t1 := by omega
  have h1' : t0 - EPOCH_MS ≤ 2 ^ 48 - 1 := by omega
  have hmaxv : MAX_TIMESTAMP_MS_48 = (281474976710655 : Int) := by decide
  have hm0 : t0 - EPOCH_MS ≤ MAX_TIMESTAMP_MS_48 := by rw [hmaxv]; omega
  have hm1 : t1 - EPOCH_MS ≤ MAX_TIMESTAMP_MS_48 := by rw [hmaxv]; omega
  rw [generate_eq env t0 e0 h0 hm0] at hg0
  rw [generate_eq env t1 e1 h0' hm1] at hg1
  have hs0 := (Except.ok.inj hg0).symm
  have hs1 := (Except.ok.inj hg1).symm
  subst hs0
  subst hs1
  set tsa := (t0 - EPOCH_MS).toNat with htsa
  set tsb := (t1 - EPOCH_MS).toNat with htsb
  set enta := e0 % 2 ^ 64 with henta
  set entb := e1 % 2 ^ 64 with hentb
  set crca := crc16CCITT (bigintToBytes tsa 6 ++ bigintToBytes enta 8) with hcrca
  set crcb := crc16CCITT (bigintToBytes tsb 6 ++ bigintToBytes entb 8) with hcrcb
  have htsab : tsa < tsb := by
    rw [htsa, htsb]
    omega
  have htsbb : tsb < 2 ^ 48 := by
    rw [hmaxv] at hm1
    omega
  have hea : enta < 2 ^ 64 := Nat.mod_lt _ (by norm_num)
  have heb : entb < 2 ^ 64 := Nat.mod_lt _ (by norm_num)
  have hca : crca < 2 ^ 16 := crc16CCITT_lt _
  have hcb : crcb < 2 ^ 16 := crc16CCITT_lt _
  have hlowa : enta * 2 ^ 16 + crca < 2 ^ 80 := by
    have hx : (enta + 1) * 2 ^ 16 ≤ 2 ^ 64 * 2 ^ 16 := Nat.mul_le_mul_right _ (by omega)
    have hy : (2 : Nat) ^ 64 * 2 ^ 16 = 2 ^ 80 := by norm_num
    omega
  have hida : tsa * 2 ^ 80 + enta * 2 ^ 16 + crca < tsb * 2 ^ 80 + entb * 2 ^ 16 + crcb := by
    have hstep : (tsa + 1) * 2 ^ 80 ≤ tsb * 2 ^ 80 := Nat.mul_le_mul_right _ (by omega)
    have hexp : (tsa + 1) * 2 ^ 80 = tsa * 2 ^ 80 + 2 ^ 80 := by ring
    omega
  have hidb : tsb * 2 ^ 80 + entb * 2 ^ 16 + crcb < 2 ^ 128 := by
    have a1 : tsb ≤ 2 ^ 48 - 1 := by omega
    have b1 : tsb * 2 ^ 80 ≤ (2 ^ 48 - 1) * 2 ^ 80 := Nat.mul_le_mul_right _ a1
    have c1 : ((2 : Nat) ^ 48 - 1) * 2 ^ 80 = 2 ^ 128 - 2 ^ 80 := by norm_num
    have b2 : entb * 2 ^ 16 ≤ (2 ^ 64 - 1) * 2 ^ 16 := Nat.mul_le_mul_right _ (by omega)
    have c2 : ((2 : Nat) ^ 64 - 1) * 2 ^ 16 = 2 ^ 80 - 2 ^ 16 := by norm_num
    have c3 : (2 : Nat) ^ 16 ≤ 2 ^ 80 := by norm_num
    have c4 : (2 : Nat) ^ 80 ≤ 2 ^ 128 := by norm_num
    omega
  set ida := tsa * 2 ^ 80 + enta * 2 ^ 16 + crca
  set idb := tsb * 2 ^ 80 + entb * 2 ^ 16 + crcb
  have hvba : ida < BASE ^ 22 := lt_trans (lt_trans hida hidb) two_pow_128_lt_base_pow_22
  have hvbb : idb < BASE ^ 22 := lt_trans hidb two_pow_128_lt_base_pow_22
  apply lex_of_listVal_lt (encodeBase62 ida) (encodeBase62 idb) 0
  · rw [encodeBase62_length hvba, encodeBase62_length hvbb]
  · exact encodeBase62_mem ida
  · exact encodeBase62_mem idb
  · rw [listVal_encodeBase62, listVal_encodeBase62]
    exact hida

theorem sortability_witness :
    List.Lex (· < ·) (encodeBase62 322030) (encodeBase62 1208925819614629174723145) := by
  have hmaxv : MAX_TIMESTAMP_MS_48 = (281474976710655 : Int) := by decide
  have hg0 : generateSolidId
      { globalCryptoAvailable := true, dateNowMs := 0, randHi := 0, randLo := 0 }
      { nowMs := some EPOCH_MS, rng64 := some 4, cryptoAvailable := true }
      = .ok (encodeBase62 322030) := by
    rw [generate_eq { globalCryptoAvailable := true, dateNowMs := 0, randHi := 0, randLo := 0 }
      EPOCH_MS 4 (le_refl EPOCH_MS) (by rw [hmaxv]; omega)]
    congr 1
  have hg1 : generateSolidId
      { globalCryptoAvailable := true, dateNowMs := 0, randHi := 0, randLo := 0 }
      { nowMs := some (EPOCH_MS + 1), rng64 := some 0, cryptoAvailable := true }
      = .ok (encodeBase62 1208925819614629174723145) := by
    rw [generate_eq { globalCryptoAvailable := true, dateNowMs := 0, randHi := 0, randLo := 0 }
      (EPOCH_MS + 1) 0 (by omega) (by rw [hmaxv]; omega)]
    congr 1
  exact sortability
    { globalCryptoAvailable := true, dateNowMs := 0, randHi := 0, randLo := 0 }
    EPOCH_MS (EPOCH_MS + 1) 4 0 _ _
    (le_refl EPOCH_MS) (by omega) (by omega) hg0 hg1

/-- C4 amended: replacing one character of a valid identifier with a
    character outside [0-9A-Za-z] yields INVALID_FORMAT; replacing it with
    an alphabet character yields either INVALID_CHECKSUM (valid = false) or —
    when the mutated string again decodes to a value whose stored checksum
    matches the recomputed CRC, which does happen — OK with valid = true,
    so single-character corruption is not always detected. -/
theorem single_char_corruption_amended (s : List Char) (p : Nat) (c0 c1 : Char)
    (hval : (parseSolidId s).valid = true)
    (hp : s[p]? = some c0) (hne : c1 ≠ c0) :
    (isAlnum c1 = false →
      (parseSolidId (s.set p c1)).status = .INVALID_FORMAT
        ∧ (parseSolidId (s.set p c1)).valid = false)
    ∧ (isAlnum c1 = true →
        ((parseSolidId (s.set p c1)).status = .INVALID_CHECKSUM
            ∧ (parseSolidId (s.set p c1)).valid = false)
        ∨ ((parseSolidId (s.set p c1)).status = .OK
            ∧ (parseSolidId (s.set p c1)).valid = true)) := by
  have hlen : s.length = ID_LENGTH := by
    by_contra h
    rw [parse_eq_invalid_length h] at hval
    simp at hval
  have hall : s.all isAlnum = true := by
    cases h : s.all isAlnum with
    | false =>
      rw [parse_eq_invalid_format hlen h] at hval
      simp at hval
    | true => rfl
  have hdec : ∃ v, decodeBase62 s = .ok v := by
    cases h : decodeBase62 s with
    | error m =>
      rw [parse_eq_decode_error hlen hall h] at hval
      simp at hval
    | ok v => exact ⟨v, rfl⟩
  obtain ⟨v, hv⟩ := hdec
  have hmem : ∀ c ∈ s, c ∈ ALPHABET := mem_of_decodeGo_ok s 0 0 v hv
  have hplen : p < s.length := by
    obtain ⟨h, _⟩ := List.getElem?_eq_some_iff.mp hp
    exact h
  have hlen' : (s.set p c1).length = ID_LENGTH := by
    rw [List.length_set]
    exact hlen
  have hc1mem : c1 ∈ s.set p c1 := by
    have hg : (s.set p c1)[p] = c1 := List.getElem_set_self (by rw [List.length_set]; exact hplen)
    exact List.mem_iff_getElem.mpr ⟨p, by rw [List.length_set]; exact hplen, hg⟩
  constructor
  · intro hno
    have hallfalse : (s.set p c1).all isAlnum = false := by
      cases hres : (s.set p c1).all isAlnum with
      | false => rfl
      | true =>
        have := List.all_eq_true.mp hres c1 hc1mem
        simp [hno] at this
    rw [parse_eq_invalid_format hlen' hallfalse]
    exact ⟨rfl, rfl⟩
  · intro hyes
    have hmem' : ∀ c ∈ s.set p c1, c ∈ ALPHABET := by
      intro c hc
      rcases List.mem_or_eq_of_mem_set hc with h | h
      · exact hmem c h
      · subst h
        exact mem_of_isAlnum hyes
    have hall' : (s.set p c1).all isAlnum = true := by
      apply List.all_eq_true.mpr
      intro c hc
      simpa using isAlnum_of_mem c (hmem' c hc)
    have hdec' : decodeBase62 (s.set p c1) = .ok (listVal 0 (s.set p c1)) :=
      decodeGo_ok _ hmem' 0 0
    by_cases hck : (extractFieldsFromBigint (listVal 0 (s.set p c1))).checksum16
        = (extractFieldsFromBigint (listVal 0 (s.set p c1))).computedChecksum16
    · right
      rw [parse_eq_ok hlen' hall' hdec' hck]
      exact ⟨rfl, rfl⟩
    · left
      rw [parse_eq_invalid_checksum hlen' hall' hdec' hck]
      exact ⟨rfl, rfl⟩

/-- C4 counterexample: a valid identifier and a single-character replacement
    (position 16, '0' changed to 'E') whose mutation still parses as a fully
    valid identifier with status OK, refuting guaranteed corruption
    detection. -/
theorem single_char_corruption_counterexample :
    (parseSolidId
      ['0', '0', '0', '0', '0', '0', '0', '0', '0', '0', '0',
       '0', '0', '0', '0', '0', '0', '0', '1', 'L', 'm', '2']).valid = true
    ∧ ['0', '0', '0', '0', '0', '0', '0', '0', '0', '0', '0',
       '0', '0', '0', '0', '0', '0', '0', '1', 'L', 'm', '2'][16]? = some '0'
    ∧ ('E' : Char) ≠ '0'
    ∧ (['0', '0', '0', '0', '0', '0', '0', '0', '0', '0', '0',
        '0', '0', '0', '0', '0', '0', '0', '1', 'L', 'm', '2'].set 16 'E'
        = ['0', '0', '0', '0', '0', '0', '0', '0', '0', '0', '0',
           '0', '0', '0', '0', '0', 'E', '0', '1', 'L', 'm', '2'])
    ∧ (parseSolidId
        ['0', '0', '0', '0', '0', '0', '0', '0', '0', '0', '0',
         '0', '0', '0', '0', '0', 'E', '0', '1', 'L', 'm', '2']).valid = true
    ∧ (parseSolidId
        ['0', '0', '0', '0', '0', '0', '0', '0', '0', '0', '0',
         '0', '0', '0', '0', '0', 'E', '0', '1', 'L', 'm', '2']).status
        = .OK := by
  refine ⟨by decide, by decide, by decide, by decide, by decide, by decide⟩

theorem single_char_corruption_amended_witness :
    ((parseSolidId
        (['0', '0', '0', '0', '0', '0', '0', '0', '0', '0', '0',
          '0', '0', '0', '0', '0', '0', '0', '1', 'L', 'm', '2'].set 16 'E')).status
        = .INVALID_CHECKSUM
      ∧ (parseSolidId
        (['0', '0', '0', '0', '0', '0', '0', '0', '0', '0', '0',
          '0', '0', '0', '0', '0', '0', '0', '1', 'L', 'm', '2'].set 16 'E')).valid = false)
    ∨ ((parseSolidId
        (['0', '0', '0', '0', '0', '0', '0', '0', '0', '0', '0',
          '0', '0', '0', '0', '0', '0', '0', '1', 'L', 'm', '2'].set 16 'E')).status = .OK
      ∧ (parseSolidId
        (['0', '0', '0', '0', '0', '0', '0', '0', '0', '0', '0',
          '0', '0', '0', '0', '0', '0', '0', '1', 'L', 'm', '2'].set 16 'E')).valid = true) :=
  (single_char_corruption_amended
    ['0', '0', '0', '0', '0', '0', '0', '0', '0', '0', '0',
     '0', '0', '0', '0', '0', '0', '0', '1', 'L', 'm', '2'] 16 '0' 'E'
    (by decide) (by decide) (by decide)).2 (by decide)
